import Mathlib

/-!
Verification of the mock-interview orchestration core of the repository:
the turn-generator client `getNextStep` (src/services/geminiService.ts and
the src/unnamed/part_005 variant), the transcription client and its retry
wrapper, the PCM decode routine (src/utils/audioUtils.ts), and the
`InterviewView` orchestrator state machine (the interview component in
src/components/OnboardingModal.tsx).

All definitions are shallow embeddings translated from the TypeScript
source.  The provider response after `JSON.parse` is modelled as a record
whose object-valued fields are `Option` (a missing JSON field is `none`)
and whose leaves carry unconstrained `Int`/`String` values, since the code
performs no client-side range or enumeration checks.
-/

/-- The `InterviewStatus` union of the interview component. -/
inductive InterviewStatus where
  | initializing
  | generating_question
  | generating_audio
  | speaking_question
  | listening
  | transcribing
  | processing_answer
deriving DecidableEq, Repr

/-- The `Scores` interface from src/types.ts.  The source type is
`number`; no range restriction is imposed anywhere in the code. -/
structure Scores where
  relevance : Int
  structureScore : Int
  metrics : Int
  alignment : Int
  communication : Int
deriving DecidableEq, Repr, Inhabited

/-- The `TranscriptTurn` interface from src/types.ts.  `sourceOfQuestion`
is an `Option String` because the orchestrator patch assigns the raw
response value, which may be absent (JS `undefined`). -/
structure TranscriptTurn where
  questionNumber : Int
  question : String
  sourceOfQuestion : Option String
  candidateAnswer : String
  quickFeedback : String
  scores : Scores
deriving DecidableEq, Repr, Inhabited

/-- The `nextQuestion` object of a parsed turn-generation response.  Every
leaf may be missing, and `sourceOfQuestion` is an arbitrary string: the
response schema sent with the request is not re-checked on parse. -/
structure NextQuestionR where
  questionNumber : Option Int
  question : Option String
  sourceOfQuestion : Option String
deriving DecidableEq, Repr

/-- The `currentAnswerAnalysis` object of a parsed response. -/
structure AnalysisR where
  quickFeedback : String
  scores : Scores
deriving DecidableEq, Repr

/-- The analysis record returned by `getNextStep` to the orchestrator:
`sourceOfQuestion` is read from `jsonResponse.nextQuestion`. -/
structure AnalysisOut where
  quickFeedback : String
  scores : Scores
  sourceOfQuestion : Option String
deriving DecidableEq, Repr

/-- The `summary` object of a final report. -/
structure ReportSummary where
  companyDetected : String
  roleDetected : String
  overallScore : Int
  topStrengths : List String
  topImprovements : List (String × String)
deriving DecidableEq, Repr

/-- The `finalReport` object of a parsed response, before the code
attaches the patched transcript.  Fields may be missing; the code does
not check them. -/
structure RawReport where
  summary : Option ReportSummary
  downloadableTranscriptMarkdown : Option String
  downloadableReportText : Option String
deriving DecidableEq, Repr

/-- A parsed turn-generation JSON response (`jsonResponse` in the source).
`interviewComplete` is `Option Bool`: `some true` is the only truthy
value; `none` models a missing field. -/
structure GenResponse where
  interviewComplete : Option Bool
  nextQuestion : Option NextQuestionR
  currentAnswerAnalysis : Option AnalysisR
  finalReport : Option RawReport
deriving DecidableEq, Repr

/-- The final report value `getNextStep` returns: the raw report with
`finalReport.transcript = finalTranscript` assigned. -/
structure FinalReport where
  summary : Option ReportSummary
  transcript : List TranscriptTurn
  downloadableTranscriptMarkdown : Option String
  downloadableReportText : Option String
deriving DecidableEq, Repr

/-- The discriminated result of `getNextStep`. -/
inductive StepResult where
  | complete (finalReport : FinalReport)
  | next (nextQuestion : Option NextQuestionR) (currentAnswerAnalysis : Option AnalysisOut)
deriving DecidableEq, Repr

/-- Indexed map, `List.map` with the element index, as in the JS
`transcript.map((turn, index) => ...)`; `i` is the index of the head. -/
def mapWithIdxGo (f : Nat → α → β) (i : Nat) : List α → List β
  | [] => []
  | x :: xs => f i x :: mapWithIdxGo f (i + 1) xs

def mapWithIdx (f : Nat → α → β) (l : List α) : List β :=
  mapWithIdxGo f 0 l

/-- The `finalTranscript` computation of `getNextStep` (geminiService.ts
lines 171-180): map over the transcript, replacing the entry at index
`transcript.length - 1` with a copy patched from the analysis when the
analysis is present. -/
def patchFinalTranscript (transcript : List TranscriptTurn)
    (analysis : Option AnalysisR) : List TranscriptTurn :=
  mapWithIdx (fun index turn =>
    match analysis with
    | some a =>
        if index = transcript.length - 1 then
          { turn with quickFeedback := a.quickFeedback, scores := a.scores }
        else turn
    | none => turn) transcript

/-- The post-parse logic of `getNextStep` (geminiService.ts lines
168-199).  `parsed` is the outcome of `JSON.parse(response.text)`:
`none` models unparseable text (a thrown `SyntaxError`).  Reading
`jsonResponse.nextQuestion.sourceOfQuestion` when `nextQuestion` is
missing throws a `TypeError` in JS, modelled as an error result. -/
def getNextStep (transcript : List TranscriptTurn) (userAnswer : Option String)
    (parsed : Option GenResponse) : Except String StepResult :=
  let isFirstTurn := transcript.isEmpty && userAnswer.isNone
  match parsed with
  | none => Except.error "SyntaxError: response text is not valid JSON"
  | some j =>
    match j.interviewComplete, j.finalReport with
    | some true, some r =>
        Except.ok (StepResult.complete
          { summary := r.summary
            transcript := patchFinalTranscript transcript j.currentAnswerAnalysis
            downloadableTranscriptMarkdown := r.downloadableTranscriptMarkdown
            downloadableReportText := r.downloadableReportText })
    | _, _ =>
        match j.currentAnswerAnalysis, isFirstTurn with
        | some a, false =>
            match j.nextQuestion with
            | none => Except.error "TypeError: cannot read sourceOfQuestion of undefined"
            | some nq =>
                Except.ok (StepResult.next (some nq)
                  (some { quickFeedback := a.quickFeedback
                          scores := a.scores
                          sourceOfQuestion := nq.sourceOfQuestion }))
        | _, _ => Except.ok (StepResult.next j.nextQuestion none)

/-! ## Transcription validity check (OnboardingModal.tsx line 243)

The JS string operations are modelled structurally over the character
list of the string, so that they evaluate on concrete inputs: `trim`
drops ASCII whitespace from both ends, `toLowerCase` maps `Char.toLower`,
and `includes` is a substring search. -/

/-- JS `String.prototype.trim` over the character list. -/
def jsTrim (cs : List Char) : List Char :=
  ((cs.dropWhile Char.isWhitespace).reverse.dropWhile Char.isWhitespace).reverse

/-- JS `String.prototype.toLowerCase` over the character list. -/
def jsToLower (cs : List Char) : List Char :=
  cs.map Char.toLower

/-- Whether `pat` occurs at the head of the second list. -/
def matchesAt : List Char → List Char → Bool
  | [], _ => true
  | _ :: _, [] => false
  | p :: ps, c :: cs => p == c && matchesAt ps cs

/-- JS `String.prototype.includes` over character lists: `pat` occurs as
a contiguous sublist. -/
def sublistSearch (pat : List Char) : List Char → Bool
  | [] => pat.isEmpty
  | c :: rest => matchesAt pat (c :: rest) || sublistSearch pat rest

def strIncludes (s pat : String) : Bool :=
  sublistSearch pat.data s.data

/-- The `isInvalid` check of the `mediaRecorder.onstop` handler:
`!transcribedText || transcribedText.trim().length < 5 ||
transcribedText.toLowerCase().includes("this is my transcribed answer")`. -/
def isInvalid (transcribedText : String) : Bool :=
  transcribedText.data.isEmpty
    || decide ((jsTrim transcribedText.data).length < 5)
    || sublistSearch ("this is my transcribed answer".data)
        (jsToLower transcribedText.data)

/-! ## Retry wrapper (src/unnamed/part_005 lines 17-28)

`retryOperation` from the part_005 variant of the service: up to
`retries` attempts, rethrowing the last error on the final attempt.
The environment is modelled as `operation : Nat -> Except String A`,
giving the outcome of each successive attempt; the returned `Nat` is the
number of remote attempts actually issued (the delay between attempts is
timing and is not modelled). -/

def retryOperationGo (operation : Nat → Except String α) (retries i : Nat) :
    Except String α × Nat :=
  if _h : i < retries then
    match operation i with
    | Except.ok v => (Except.ok v, i + 1)
    | Except.error e =>
        if i = retries - 1 then (Except.error e, i + 1)
        else retryOperationGo operation retries (i + 1)
  else (Except.error "Operation failed after retries", i)
termination_by retries - i

def retryOperation (operation : Nat → Except String α) (retries : Nat) :
    Except String α × Nat :=
  retryOperationGo operation retries 0

/-- The `transcribeAudio` of src/services/geminiService.ts: a single
`generateContent` call whose outcome (`response.text` or a thrown error)
is returned to the caller unchanged; exactly one remote request. -/
def transcribeAudioMain (remote : Nat → Except String String) :
    Except String String × Nat :=
  (remote 0, 1)

/-- The `transcribeAudio` of src/unnamed/part_005 (lines 105-125): the same
remote call wrapped in `retryOperation` with the default `retries = 2`. -/
def transcribeAudioPart5 (remote : Nat → Except String String) :
    Except String String × Nat :=
  retryOperation remote 2

/-! ## PCM decoding (src/utils/audioUtils.ts lines 14-33)

`decodeAudioData` views the byte buffer as little-endian signed 16-bit
samples and writes `dataInt16[i * numChannels + channel] / 32768.0` into
each channel array.  Every `int16 / 32768` value is exactly representable
as an IEEE double, so `Rat` models the produced floats exactly. -/

/-- The `Int16Array` view of a byte sequence: consecutive little-endian
pairs as signed 16-bit integers. -/
def int16View : List Nat → List Int
  | lo :: hi :: rest =>
      (let u : Nat := lo % 256 + 256 * (hi % 256)
       if u < 32768 then (u : Int) else (u : Int) - 65536) :: int16View rest
  | _ => []

/-- One channel of `decodeAudioData`: `frameCount = dataInt16.length /
numChannels` samples, each `dataInt16[i * numChannels + channel] /
32768`. -/
def decodeAudioData (data : List Nat) (numChannels channel : Nat) : List Rat :=
  let dataInt16 := int16View data
  let frameCount := dataInt16.length / numChannels
  (List.range frameCount).map
    (fun i => ((dataInt16.getD (i * numChannels + channel) 0 : Int) : Rat) / 32768)

/-! ## Heap model of the `finalTranscript` construction

To state that `getNextStep` never mutates the `Turn` objects of the caller,
turns live in an explicit store addressed by allocation order and the
transcript argument is a list of addresses.  `transcript.map` walks the
addresses; an unpatched turn is returned as the same address (the JS
callback returns the same object reference), while the patched last turn
is `{...turn, ...}` — a fresh allocation. -/

abbrev Addr := Nat

structure Heap where
  cells : List TranscriptTurn
deriving DecidableEq, Repr

def Heap.read (h : Heap) (a : Addr) : TranscriptTurn :=
  h.cells.getD a default

def Heap.alloc (h : Heap) (t : TranscriptTurn) : Heap × Addr :=
  ({ cells := h.cells ++ [t] }, h.cells.length)

/-- The `transcript.map((turn, index) => ...)` of the completion branch,
over the store: `len` is `transcript.length`, `idx` the index of the
head of the remaining address list. -/
def finalTranscriptAllocGo (h : Heap) (analysis : Option AnalysisR)
    (len idx : Nat) : List Addr → Heap × List Addr
  | [] => (h, [])
  | a :: rest =>
    match analysis with
    | some an =>
        if idx = len - 1 then
          let allocated := h.alloc
            { h.read a with quickFeedback := an.quickFeedback, scores := an.scores }
          let tail := finalTranscriptAllocGo allocated.1 analysis len (idx + 1) rest
          (tail.1, allocated.2 :: tail.2)
        else
          let tail := finalTranscriptAllocGo h analysis len (idx + 1) rest
          (tail.1, a :: tail.2)
    | none =>
        let tail := finalTranscriptAllocGo h analysis len (idx + 1) rest
        (tail.1, a :: tail.2)

def finalTranscriptAlloc (h : Heap) (transcript : List Addr)
    (analysis : Option AnalysisR) : Heap × List Addr :=
  finalTranscriptAllocGo h analysis transcript.length 0 transcript

/-- The heap-level result of `getNextStep`: the completion branch carries
the address list of the patched transcript. -/
inductive StepResultH where
  | complete (transcript : List Addr) (report : RawReport)
  | next (nextQuestion : Option NextQuestionR) (currentAnswerAnalysis : Option AnalysisOut)
deriving DecidableEq, Repr

/-- The `getNextStep` logic over the store: only the completion branch touches the
heap, and it only allocates — no existing cell is written. -/
def getNextStepHeap (h : Heap) (transcript : List Addr)
    (userAnswer : Option String) (parsed : Option GenResponse) :
    Heap × Except String StepResultH :=
  let isFirstTurn := transcript.isEmpty && userAnswer.isNone
  match parsed with
  | none => (h, Except.error "SyntaxError: response text is not valid JSON")
  | some j =>
    match j.interviewComplete, j.finalReport with
    | some true, some r =>
        let res := finalTranscriptAlloc h transcript j.currentAnswerAnalysis
        (res.1, Except.ok (StepResultH.complete res.2 r))
    | _, _ =>
        match j.currentAnswerAnalysis, isFirstTurn with
        | some a, false =>
            match j.nextQuestion with
            | none => (h, Except.error "TypeError: cannot read sourceOfQuestion of undefined")
            | some nq =>
                (h, Except.ok (StepResultH.next (some nq)
                  (some { quickFeedback := a.quickFeedback
                          scores := a.scores
                          sourceOfQuestion := nq.sourceOfQuestion })))
        | _, _ => (h, Except.ok (StepResultH.next j.nextQuestion none))

/-! ## The interview orchestrator state machine

The `InterviewView` component (OnboardingModal.tsx, second document)
drives the interview.  JS is single-threaded: the handlers and the
resumptions of the `async` functions run one at a time, so the session is
modelled as a state machine stepped by events.  An event is either an
external stimulus (mount success, the stop-recording click, the recorder
`onstop` callback) or the resumption of an `await` with the outcome the
environment produced for the pending remote call.  Each resumption event
is guarded by the corresponding pending flag, since a promise resolves at
most once; the stop-click event is guarded by the button being enabled
(disabled outside the listening status) and by the recorder check in
`stopRecordingAndProcess`.  `pendingGen` counts turn-generator calls in
flight, and `genCalls` / `transcribeCalls` count the remote calls issued,
so the single-flight and never-invoked claims are not true by type. -/

/-- The outcome the environment produces for a `getNextStep` call, as
consumed by `processNextStep`: a thrown error (network failure,
unparseable JSON, or the `response.nextQuestion!` destructuring of a
missing question — all reach the same `catch`), a completion result, or
a next question. -/
inductive GenOutcome where
  | fail
  | complete (finalReport : FinalReport)
  | next (question : String) (questionNumber : Int) (analysis : Option AnalysisOut)
deriving DecidableEq, Repr

/-- The outcome of a pending `transcribeAudio` call. -/
inductive TrOutcome where
  | fail
  | ok (text : String)
deriving DecidableEq, Repr

inductive Ev where
  | mount
  | genDone (g : GenOutcome)
  | ttsDone (ok : Bool)
  | playDone (ok : Bool)
  | stopClick
  | recorderStopped (blobSize : Nat)
  | transcribeDone (r : TrOutcome)
deriving DecidableEq, Repr

structure MState where
  status : InterviewStatus
  transcript : List TranscriptTurn
  currentQuestion : String
  questionNumber : Int
  transcriptionError : Option String
  permissionError : Option String
  recording : Bool
  pendingGen : Nat
  pendingTts : Bool
  pendingPlay : Bool
  pendingStop : Bool
  pendingTranscribe : Bool
  genCalls : Nat
  transcribeCalls : Nat
  finished : Option FinalReport
deriving DecidableEq, Repr

/-- The initial component state: `useState` initialisers plus an idle
recorder and no pending calls. -/
def initState : MState :=
  { status := InterviewStatus.initializing
    transcript := []
    currentQuestion := ""
    questionNumber := 0
    transcriptionError := none
    permissionError := none
    recording := false
    pendingGen := 0
    pendingTts := false
    pendingPlay := false
    pendingStop := false
    pendingTranscribe := false
    genCalls := 0
    transcribeCalls := 0
    finished := none }

/-- The disabled attribute of the stop-recording button
(disabled whenever the status is not listening). -/
def stopButtonDisabled (status : InterviewStatus) : Bool :=
  status != InterviewStatus.listening

/-- The `newTurn` literal of `processNextStep` (OnboardingModal.tsx lines
152-159): the answered question with placeholder feedback and scores. -/
def answerTurn (s : MState) (userAnswer : String) : TranscriptTurn :=
  { questionNumber := s.questionNumber
    question := s.currentQuestion
    candidateAnswer := userAnswer
    quickFeedback := "Analyzing..."
    scores := { relevance := 0, structureScore := 0, metrics := 0
                alignment := 0, communication := 0 }
    sourceOfQuestion := some "JD" }

/-- The in-place patch of the last transcript turn when an analysis is
returned (OnboardingModal.tsx lines 175-184): `if (lastTurn)` guards the
empty case; feedback, scores and source are overwritten. -/
def patchLastTurn (l : List TranscriptTurn) (a : AnalysisOut) : List TranscriptTurn :=
  match l.getLast? with
  | none => l
  | some lastTurn =>
      l.dropLast ++ [{ lastTurn with quickFeedback := a.quickFeedback
                                     scores := a.scores
                                     sourceOfQuestion := a.sourceOfQuestion }]

/-- One event step of the orchestrator.  Once `onFinish` has run the
component navigates to the report view, so every later event is a
no-op. -/
def step (s : MState) (e : Ev) : MState :=
  if s.finished.isSome then s else
  match e with
  | Ev.mount =>
      if s.status = InterviewStatus.initializing then
        { s with status := InterviewStatus.generating_question
                 pendingGen := s.pendingGen + 1
                 genCalls := s.genCalls + 1 }
      else s
  | Ev.genDone g =>
      if s.pendingGen = 0 then s else
      let s1 := { s with pendingGen := s.pendingGen - 1 }
      match g with
      | GenOutcome.fail =>
          { s1 with permissionError := some "An error occurred during the interview. Please try again." }
      | GenOutcome.complete fr => { s1 with finished := some fr }
      | GenOutcome.next q n an =>
          let s2 :=
            match an with
            | some a => { s1 with transcript := patchLastTurn s1.transcript a }
            | none => s1
          { s2 with currentQuestion := q
                    questionNumber := n
                    status := InterviewStatus.generating_audio
                    pendingTts := true }
  | Ev.ttsDone ok =>
      if s.pendingTts = false then s else
      let s1 := { s with pendingTts := false }
      if ok then
        { s1 with status := InterviewStatus.speaking_question, pendingPlay := true }
      else
        { s1 with permissionError := some "An error occurred during the interview. Please try again." }
  | Ev.playDone ok =>
      if s.pendingPlay = false then s else
      let s1 := { s with pendingPlay := false }
      if ok then
        { s1 with status := InterviewStatus.listening, recording := true }
      else
        { s1 with permissionError := some "An error occurred during the interview. Please try again." }
  | Ev.stopClick =>
      if stopButtonDisabled s.status = false ∧ s.recording = true then
        { s with recording := false, pendingStop := true }
      else s
  | Ev.recorderStopped blobSize =>
      if s.pendingStop = false then s else
      let s1 := { s with pendingStop := false
                         status := InterviewStatus.transcribing
                         transcriptionError := none }
      if blobSize = 0 then
        { s1 with
            transcriptionError := some "No valid answer was heard. Please try answering again."
            status := InterviewStatus.listening
            recording := true }
      else
        { s1 with pendingTranscribe := true
                  transcribeCalls := s1.transcribeCalls + 1 }
  | Ev.transcribeDone r =>
      if s.pendingTranscribe = false then s else
      let s1 := { s with pendingTranscribe := false }
      match r with
      | TrOutcome.fail =>
          { s1 with
              transcriptionError := some "There was an error transcribing the answer. Please try again."
              status := InterviewStatus.listening
              recording := true }
      | TrOutcome.ok t =>
          if isInvalid t then
            { s1 with
                transcriptionError := some "No valid answer was heard. Please try answering again."
                status := InterviewStatus.listening
                recording := true }
          else
            { s1 with status := InterviewStatus.processing_answer
                      transcript := s1.transcript ++ [answerTurn s1 t]
                      pendingGen := s1.pendingGen + 1
                      genCalls := s1.genCalls + 1 }

/-- A session run: fold the events over the initial state. -/
def runInterview (evs : List Ev) : MState :=
  evs.foldl step initState

/-! ## Lemmas about the indexed map -/

theorem mapWithIdxGo_length (f : Nat → α → β) (i : Nat) (l : List α) :
    (mapWithIdxGo f i l).length = l.length := by
  induction l generalizing i with
  | nil => simp [mapWithIdxGo]
  | cons x xs ih => simp [mapWithIdxGo, ih]

theorem mapWithIdxGo_getElem? (f : Nat → α → β) (i k : Nat) (l : List α) :
    (mapWithIdxGo f i l)[k]? = (l[k]?).map (f (i + k)) := by
  induction l generalizing i k with
  | nil => simp [mapWithIdxGo]
  | cons x xs ih =>
      cases k with
      | zero => simp [mapWithIdxGo]
      | succ k =>
          simp only [mapWithIdxGo, List.getElem?_cons_succ, ih]
          have : i + 1 + k = i + (k + 1) := by omega
          rw [this]

theorem mapWithIdx_getElem? (f : Nat → α → β) (k : Nat) (l : List α) :
    (mapWithIdx f l)[k]? = (l[k]?).map (f k) := by
  simpa using mapWithIdxGo_getElem? f 0 k l

theorem patchFinalTranscript_length (tr : List TranscriptTurn) (an : Option AnalysisR) :
    (patchFinalTranscript tr an).length = tr.length := by
  simp [patchFinalTranscript, mapWithIdx, mapWithIdxGo_length]

theorem patchFinalTranscript_getElem? (tr : List TranscriptTurn)
    (an : Option AnalysisR) (k : Nat) :
    (patchFinalTranscript tr an)[k]? = (tr[k]?).map (fun turn =>
      match an with
      | some a =>
          if k = tr.length - 1 then
            { turn with quickFeedback := a.quickFeedback, scores := a.scores }
          else turn
      | none => turn) := by
  simp only [patchFinalTranscript, mapWithIdx_getElem?]
  cases an <;> cases tr[k]? <;> rfl

theorem patchFinalTranscript_earlier (tr : List TranscriptTurn)
    (an : Option AnalysisR) (i : Nat) (h : i + 1 < tr.length) :
    (patchFinalTranscript tr an)[i]? = tr[i]? := by
  rw [patchFinalTranscript_getElem?]
  have hne : i ≠ tr.length - 1 := by omega
  cases an with
  | none => cases tr[i]? <;> simp
  | some a => cases tr[i]? <;> simp [hne]

theorem patchFinalTranscript_none (tr : List TranscriptTurn) :
    patchFinalTranscript tr none = tr := by
  apply List.ext_getElem?
  intro k
  rw [patchFinalTranscript_getElem?]
  cases tr[k]? <;> simp

theorem patchFinalTranscript_last (tr : List TranscriptTurn) (a : AnalysisR) :
    (patchFinalTranscript tr (some a))[tr.length - 1]? =
      (tr[tr.length - 1]?).map (fun turn =>
        { turn with quickFeedback := a.quickFeedback, scores := a.scores }) := by
  rw [patchFinalTranscript_getElem?]
  cases tr[tr.length - 1]? <;> simp

/-- C1: when the provider response has `interviewComplete = true` and a
`finalReport`, `getNextStep` succeeds with a completion result whose
report transcript is the caller transcript in which only the
`quickFeedback` and `scores` of the last turn are replaced by the
`currentAnswerAnalysis` (all earlier turns unchanged; everything
unchanged when no analysis is present), and on a completion result the
orchestrator finishes without appending any turn: once finished, every
further event is a no-op. -/
theorem getNextStep_complete_patches_last_turn
    (transcript : List TranscriptTurn) (userAnswer : Option String)
    (j : GenResponse) (r : RawReport)
    (hc : j.interviewComplete = some true) (hf : j.finalReport = some r) :
    (getNextStep transcript userAnswer (some j) = Except.ok (StepResult.complete
      { summary := r.summary
        transcript := patchFinalTranscript transcript j.currentAnswerAnalysis
        downloadableTranscriptMarkdown := r.downloadableTranscriptMarkdown
        downloadableReportText := r.downloadableReportText })) ∧
    (patchFinalTranscript transcript j.currentAnswerAnalysis).length
      = transcript.length ∧
    (∀ i : Nat, i + 1 < transcript.length →
      (patchFinalTranscript transcript j.currentAnswerAnalysis)[i]? = transcript[i]?) ∧
    (∀ a, j.currentAnswerAnalysis = some a →
      (patchFinalTranscript transcript (some a))[transcript.length - 1]? =
        (transcript[transcript.length - 1]?).map (fun turn =>
          { turn with quickFeedback := a.quickFeedback, scores := a.scores })) ∧
    (j.currentAnswerAnalysis = none →
      patchFinalTranscript transcript none = transcript) ∧
    (∀ (s : MState) (fr : FinalReport), s.finished = none → s.pendingGen ≠ 0 →
      (step s (Ev.genDone (GenOutcome.complete fr))).transcript = s.transcript ∧
      (step s (Ev.genDone (GenOutcome.complete fr))).finished = some fr) ∧
    (∀ (s : MState) (e : Ev), s.finished.isSome = true → step s e = s) := by
  refine ⟨?_, patchFinalTranscript_length _ _,
    fun i hi => patchFinalTranscript_earlier _ _ i hi,
    fun a _ => patchFinalTranscript_last _ a,
    fun _ => patchFinalTranscript_none _, ?_, ?_⟩
  · simp [getNextStep, hc, hf]
  · intro s fr hfin hpg
    simp [step, hfin, hpg]
  · intro s e hfin
    simp [step, hfin]

/-- Witness for C1 at a concrete two-turn transcript and a concrete
completion response carrying an analysis. -/
theorem getNextStep_complete_patches_last_turn_witness :
    ({ interviewComplete := some true
       nextQuestion := none
       currentAnswerAnalysis := some { quickFeedback := "Well structured", scores := ⟨4, 5, 3, 4, 4⟩ }
       finalReport := some { summary := none, downloadableTranscriptMarkdown := some "md", downloadableReportText := some "txt" } } : GenResponse).interviewComplete = some true ∧
    getNextStep
      [{ questionNumber := 1, question := "Q1", sourceOfQuestion := some "JD",
         candidateAnswer := "A1", quickFeedback := "fb1", scores := ⟨3, 3, 3, 3, 3⟩ },
       { questionNumber := 2, question := "Q2", sourceOfQuestion := some "Mixed",
         candidateAnswer := "A2", quickFeedback := "Analyzing...", scores := ⟨0, 0, 0, 0, 0⟩ }]
      (some "A2")
      (some { interviewComplete := some true
              nextQuestion := none
              currentAnswerAnalysis := some { quickFeedback := "Well structured", scores := ⟨4, 5, 3, 4, 4⟩ }
              finalReport := some { summary := none, downloadableTranscriptMarkdown := some "md", downloadableReportText := some "txt" } })
      = Except.ok (StepResult.complete
          { summary := none
            transcript :=
              [{ questionNumber := 1, question := "Q1", sourceOfQuestion := some "JD",
                 candidateAnswer := "A1", quickFeedback := "fb1", scores := ⟨3, 3, 3, 3, 3⟩ },
               { questionNumber := 2, question := "Q2", sourceOfQuestion := some "Mixed",
                 candidateAnswer := "A2", quickFeedback := "Well structured", scores := ⟨4, 5, 3, 4, 4⟩ }]
            downloadableTranscriptMarkdown := some "md"
            downloadableReportText := some "txt" }) := by
  refine ⟨rfl, ?_⟩
  have h := (getNextStep_complete_patches_last_turn
    [{ questionNumber := 1, question := "Q1", sourceOfQuestion := some "JD",
       candidateAnswer := "A1", quickFeedback := "fb1", scores := ⟨3, 3, 3, 3, 3⟩ },
     { questionNumber := 2, question := "Q2", sourceOfQuestion := some "Mixed",
       candidateAnswer := "A2", quickFeedback := "Analyzing...", scores := ⟨0, 0, 0, 0, 0⟩ }]
    (some "A2")
    { interviewComplete := some true
      nextQuestion := none
      currentAnswerAnalysis := some { quickFeedback := "Well structured", scores := ⟨4, 5, 3, 4, 4⟩ }
      finalReport := some { summary := none, downloadableTranscriptMarkdown := some "md", downloadableReportText := some "txt" } }
    { summary := none, downloadableTranscriptMarkdown := some "md", downloadableReportText := some "txt" }
    rfl rfl).1
  rw [h]
  congr 1

/-! ## C3: validation behaviour of `getNextStep` -/

/-- C3 counterexample: a structurally malformed but parseable response —
`scores.relevance = 99` (outside 1..5), `scores.metrics = -3`, and
`sourceOfQuestion = "Banana"` (outside the fixed enumeration) — is routed
into a successful result carrying those very values, not a failure. -/
theorem malformed_response_coerced_to_success :
    getNextStep
      [{ questionNumber := 1, question := "Q1", sourceOfQuestion := some "JD",
         candidateAnswer := "A1", quickFeedback := "Analyzing...", scores := ⟨0, 0, 0, 0, 0⟩ }]
      (some "my answer")
      (some { interviewComplete := some false
              nextQuestion := some { questionNumber := some 2, question := some "Why this company?", sourceOfQuestion := some "Banana" }
              currentAnswerAnalysis := some { quickFeedback := "fine", scores := ⟨99, 0, -3, 7, 100⟩ }
              finalReport := none })
      = Except.ok (StepResult.next
          (some { questionNumber := some 2, question := some "Why this company?", sourceOfQuestion := some "Banana" })
          (some { quickFeedback := "fine", scores := ⟨99, 0, -3, 7, 100⟩,
                  sourceOfQuestion := some "Banana" })) := by
  rfl

/-- C3 amended: the only failure conditions of `getNextStep` are
unparseable response text (the `JSON.parse` throw) and the accidental
`TypeError` of reading `nextQuestion.sourceOfQuestion` when an analysis
is present on a non-first turn but `nextQuestion` is absent.  Any
parseable response containing a `nextQuestion` object yields a successful
result regardless of its field values — no range or enumeration check is
performed. -/
theorem getNextStep_validation_boundary :
    (∀ (t : List TranscriptTurn) (ua : Option String),
      getNextStep t ua none
        = Except.error "SyntaxError: response text is not valid JSON") ∧
    (∀ (t : List TranscriptTurn) (ua : Option String) (j : GenResponse)
        (nq : NextQuestionR), j.nextQuestion = some nq →
      ∃ res, getNextStep t ua (some j) = Except.ok res) ∧
    (∀ (t : List TranscriptTurn) (ua : Option String) (j : GenResponse)
        (a : AnalysisR),
      ¬(j.interviewComplete = some true ∧ j.finalReport.isSome = true) →
      j.currentAnswerAnalysis = some a →
      (t.isEmpty && ua.isNone) = false →
      j.nextQuestion = none →
      getNextStep t ua (some j)
        = Except.error "TypeError: cannot read sourceOfQuestion of undefined") := by
  refine ⟨fun t ua => rfl, ?_, ?_⟩
  · intro t ua j nq hnq
    rcases j with ⟨ic, nqo, an, fr⟩
    simp only at hnq
    subst hnq
    simp only [getNextStep]
    rcases ic with _ | ib
    · cases an with
      | none => cases (t.isEmpty && ua.isNone) <;> exact ⟨_, rfl⟩
      | some a => cases hb : (t.isEmpty && ua.isNone) <;> simp [hb]
    · cases ib
      · cases an with
        | none => cases (t.isEmpty && ua.isNone) <;> exact ⟨_, rfl⟩
        | some a => cases hb : (t.isEmpty && ua.isNone) <;> simp [hb]
      · cases fr with
        | some r => exact ⟨_, rfl⟩
        | none =>
            cases an with
            | none => cases (t.isEmpty && ua.isNone) <;> exact ⟨_, rfl⟩
            | some a => cases hb : (t.isEmpty && ua.isNone) <;> simp [hb]
  · intro t ua j a hnc han hfb hnq
    rcases j with ⟨ic, nqo, an, fr⟩
    simp only at han hfb hnq hnc
    subst han
    subst hnq
    simp only [getNextStep, hfb]
    rcases ic with _ | ib
    · rfl
    · cases ib
      · rfl
      · cases fr with
        | none => rfl
        | some r => exact absurd ⟨rfl, rfl⟩ hnc

/-- Witness for the C3 amended theorem: the `TypeError` branch and the
`SyntaxError` branch at concrete inputs. -/
theorem getNextStep_validation_boundary_witness :
    getNextStep ([] : List TranscriptTurn) (some "answer")
        (some { interviewComplete := some false
                nextQuestion := none
                currentAnswerAnalysis := some { quickFeedback := "ok", scores := ⟨3, 3, 3, 3, 3⟩ }
                finalReport := none })
      = Except.error "TypeError: cannot read sourceOfQuestion of undefined" ∧
    getNextStep ([] : List TranscriptTurn) none none
      = Except.error "SyntaxError: response text is not valid JSON" := by
  constructor
  · exact getNextStep_validation_boundary.2.2 [] (some "answer")
      { interviewComplete := some false
        nextQuestion := none
        currentAnswerAnalysis := some { quickFeedback := "ok", scores := ⟨3, 3, 3, 3, 3⟩ }
        finalReport := none }
      { quickFeedback := "ok", scores := ⟨3, 3, 3, 3, 3⟩ }
      (by simp) rfl rfl rfl
  · exact getNextStep_validation_boundary.1 [] none

/-! ## C9: PCM decode -/

/-- Every sample of the `Int16Array` view is a signed 16-bit value. -/
theorem int16View_mem_bounds :
    ∀ (data : List Nat), ∀ v ∈ int16View data, -32768 ≤ v ∧ v ≤ 32767
  | [] => by simp [int16View]
  | [x] => by simp [int16View]
  | lo :: hi :: rest => by
      intro v hv
      simp only [int16View, List.mem_cons] at hv
      rcases hv with h | h
      · subst h
        have hlo : lo % 256 < 256 := Nat.mod_lt lo (by omega)
        have hhi : hi % 256 < 256 := Nat.mod_lt hi (by omega)
        split
        · rename_i hlt
          constructor <;> [omega; exact_mod_cast by omega]
        · rename_i hge
          have hle : lo % 256 + 256 * (hi % 256) ≤ 65535 := by omega
          constructor
          · have : (32768 : Nat) ≤ lo % 256 + 256 * (hi % 256) := by omega
            have h1 : (32768 : Int) ≤ ((lo % 256 + 256 * (hi % 256) : Nat) : Int) := by
              exact_mod_cast this
            omega
          · have h2 : ((lo % 256 + 256 * (hi % 256) : Nat) : Int) ≤ 65535 := by
              exact_mod_cast hle
            omega
      · exact int16View_mem_bounds rest v h

/-- C9: decoding the 4-byte PCM input `[0x00, 0x80, 0x00, 0x00]`
(little-endian int16 samples -32768 and 0) at one channel yields exactly
the samples -1 and 0; in general each output sample is the corresponding
signed 16-bit sample divided by 32768, and every decoded 16-bit sample
lies in [-32768, 32767]. -/
theorem decodeAudioData_pcm_correct :
    decodeAudioData [0x00, 0x80, 0x00, 0x00] 1 0 = [-1, 0] ∧
    (∀ (data : List Nat) (nc ch i : Nat),
      i < (int16View data).length / nc →
      (decodeAudioData data nc ch)[i]? =
        some ((((int16View data).getD (i * nc + ch) 0 : Int) : Rat) / 32768)) ∧
    (∀ (data : List Nat), ∀ v ∈ int16View data, -32768 ≤ v ∧ v ≤ 32767) := by
  refine ⟨?_, ?_, int16View_mem_bounds⟩
  · simp [decodeAudioData, int16View, List.range_succ]
  · intro data nc ch i hi
    simp [decodeAudioData, List.getElem?_range, hi]

/-- Witness for C9: the pointwise characterisation at the second sample
of the known input. -/
theorem decodeAudioData_pcm_correct_witness :
    1 < (int16View [0x00, 0x80, 0x00, 0x00]).length / 1 ∧
    (decodeAudioData [0x00, 0x80, 0x00, 0x00] 1 0)[1]? =
      some ((((int16View [0x00, 0x80, 0x00, 0x00]).getD (1 * 1 + 0) 0 : Int) : Rat) / 32768) :=
  ⟨by decide, decodeAudioData_pcm_correct.2.1 [0x00, 0x80, 0x00, 0x00] 1 0 1 (by decide)⟩

/-! ## C7: retry behaviour of the two service variants -/

/-- C7 counterexample: in the part_005 variant, a transcription call
whose first remote attempt fails is retried — two remote requests are
issued for one input blob and the first failure is not propagated,
contradicting the no-retry claim. -/
theorem part5_transcribe_retries_once :
    transcribeAudioPart5
      (fun i => if i = 0 then Except.error "network error" else Except.ok "transcribed text")
      = (Except.ok "transcribed text", 2) := by
  simp [transcribeAudioPart5, retryOperation, retryOperationGo]

/-- C7 amended: the geminiService.ts `transcribeAudio` issues exactly one
remote request and returns its outcome unchanged, but the part_005
variant wraps `transcribeAudio` — like `generateSpeech` and `getNextStep`
there — in `retryOperation` with `retries = 2`: a first-attempt success
is returned after one request, while a first-attempt failure is retried
once and the outcome of the second attempt is what the caller sees. -/
theorem retry_policy_by_variant :
    (∀ remote : Nat → Except String String,
      transcribeAudioMain remote = (remote 0, 1)) ∧
    (∀ (remote : Nat → Except String String) (v : String),
      remote 0 = Except.ok v → transcribeAudioPart5 remote = (Except.ok v, 1)) ∧
    (∀ (remote : Nat → Except String String) (e : String),
      remote 0 = Except.error e → transcribeAudioPart5 remote = (remote 1, 2)) ∧
    (∀ (α : Type) (operation : Nat → Except String α) (e : String),
      operation 0 = Except.error e →
      retryOperation operation 2 = (operation 1, 2)) := by
  have hgen : ∀ (α : Type) (operation : Nat → Except String α) (e : String),
      operation 0 = Except.error e →
      retryOperation operation 2 = (operation 1, 2) := by
    intro α operation e h0
    rw [retryOperation, retryOperationGo]
    simp only [h0]
    rw [retryOperationGo]
    norm_num
    cases h1 : operation 1 <;> simp [h1]
  refine ⟨fun remote => rfl, ?_, ?_, hgen⟩
  · intro remote v h0
    rw [transcribeAudioPart5, retryOperation, retryOperationGo]
    simp [h0]
  · intro remote e h0
    exact hgen String remote e h0

/-- Witness for the C7 amended theorem: a first-attempt failure at a
concrete remote outcome sequence. -/
theorem retry_policy_by_variant_witness :
    (fun i => if i = 0 then Except.error "boom" else Except.ok "second try") 0
      = (Except.error "boom" : Except String String) ∧
    transcribeAudioPart5 (fun i => if i = 0 then Except.error "boom" else Except.ok "second try")
      = ((fun i => if i = 0 then Except.error "boom" else Except.ok "second try") 1, 2) :=
  ⟨rfl, retry_policy_by_variant.2.2.1
    (fun i => if i = 0 then Except.error "boom" else Except.ok "second try") "boom" rfl⟩

/-! ## C8: single-flight invariant

`opCount` counts everything that is "in progress" in a session: pending
remote calls, the gap between the stop click and the recorder `onstop`
callback, and an active recording.  The code keeps at most one of these
alive at a time; the single-flight property for turn-generator calls
follows. -/

def b2n (b : Bool) : Nat := if b then 1 else 0

theorem b2n_true : b2n true = 1 := rfl

theorem b2n_false : b2n false = 0 := rfl

def opCount (s : MState) : Nat :=
  s.pendingGen + b2n s.pendingTts + b2n s.pendingPlay + b2n s.pendingStop
    + b2n s.pendingTranscribe + b2n s.recording

def SessionInv (s : MState) : Prop :=
  opCount s ≤ 1 ∧ (s.status = InterviewStatus.initializing → opCount s = 0)

theorem inv_initState : SessionInv initState := by
  constructor <;> simp [initState, opCount, b2n]

theorem bool_not_false {b : Bool} (h : ¬(b = false)) : b = true := by
  cases b
  · exact absurd rfl h
  · rfl

theorem inv_step (s : MState) (e : Ev) (h : SessionInv s) : SessionInv (step s e) := by
  obtain ⟨h1, h2⟩ := h
  simp only [SessionInv, opCount] at h1 h2 ⊢
  unfold step
  by_cases hfin : s.finished.isSome = true
  · rw [if_pos hfin]
    exact ⟨h1, h2⟩
  · rw [if_neg hfin]
    cases e with
    | mount =>
        dsimp only
        split
        · rename_i hst
          have h0 := h2 hst
          dsimp only
          refine ⟨by omega, fun hbad => absurd hbad (by simp)⟩
        · exact ⟨h1, h2⟩
    | genDone g =>
        dsimp only
        split
        · exact ⟨h1, h2⟩
        · rename_i hpg
          cases g with
          | fail =>
              dsimp only
              refine ⟨by omega, ?_⟩
              intro hst
              have h0 := h2 hst
              omega
          | complete fr =>
              dsimp only
              refine ⟨by omega, ?_⟩
              intro hst
              have h0 := h2 hst
              omega
          | next q n an =>
              cases an with
              | none =>
                  dsimp only
                  simp only [b2n_true]
                  refine ⟨by omega, fun hbad => absurd hbad (by simp)⟩
              | some a =>
                  dsimp only
                  simp only [b2n_true]
                  refine ⟨by omega, fun hbad => absurd hbad (by simp)⟩
    | ttsDone ok =>
        dsimp only
        split
        · exact ⟨h1, h2⟩
        · rename_i hptts
          have htts : s.pendingTts = true := bool_not_false hptts
          rw [htts] at h1 h2
          simp only [b2n_true] at h1 h2
          split
          · dsimp only
            simp only [b2n_true, b2n_false]
            refine ⟨by omega, fun hbad => absurd hbad (by simp)⟩
          · dsimp only
            simp only [b2n_false]
            refine ⟨by omega, ?_⟩
            intro hst
            have h0 := h2 hst
            omega
    | playDone ok =>
        dsimp only
        split
        · exact ⟨h1, h2⟩
        · rename_i hpp
          have hplay : s.pendingPlay = true := bool_not_false hpp
          rw [hplay] at h1 h2
          simp only [b2n_true] at h1 h2
          split
          · dsimp only
            simp only [b2n_true, b2n_false]
            refine ⟨by omega, fun hbad => absurd hbad (by simp)⟩
          · dsimp only
            simp only [b2n_false]
            refine ⟨by omega, ?_⟩
            intro hst
            have h0 := h2 hst
            omega
    | stopClick =>
        dsimp only
        split
        · rename_i hg
          obtain ⟨hbtn, hrec⟩ := hg
          rw [hrec] at h1 h2
          simp only [b2n_true] at h1 h2
          dsimp only
          simp only [b2n_true, b2n_false]
          refine ⟨by omega, ?_⟩
          intro hst
          rw [hst] at hbtn
          exact absurd hbtn (by simp [stopButtonDisabled])
        · exact ⟨h1, h2⟩
    | recorderStopped blobSize =>
        dsimp only
        split
        · exact ⟨h1, h2⟩
        · rename_i hps
          have hstop : s.pendingStop = true := bool_not_false hps
          rw [hstop] at h1 h2
          simp only [b2n_true] at h1 h2
          split
          · dsimp only
            simp only [b2n_true, b2n_false]
            refine ⟨by omega, fun hbad => absurd hbad (by simp)⟩
          · dsimp only
            simp only [b2n_true, b2n_false]
            refine ⟨by omega, fun hbad => absurd hbad (by simp)⟩
    | transcribeDone r =>
        dsimp only
        split
        · exact ⟨h1, h2⟩
        · rename_i hpt
          have htr : s.pendingTranscribe = true := bool_not_false hpt
          rw [htr] at h1 h2
          simp only [b2n_true] at h1 h2
          cases r with
          | fail =>
              dsimp only
              simp only [b2n_true, b2n_false]
              refine ⟨by omega, fun hbad => absurd hbad (by simp)⟩
          | ok t =>
              dsimp only
              split
              · dsimp only
                simp only [b2n_true, b2n_false]
                refine ⟨by omega, fun hbad => absurd hbad (by simp)⟩
              · dsimp only
                simp only [b2n_true, b2n_false]
                refine ⟨by omega, fun hbad => absurd hbad (by simp)⟩

theorem inv_run_aux : ∀ (evs : List Ev) (s : MState), SessionInv s → SessionInv (evs.foldl step s)
  | [], _, h => h
  | e :: evs, s, h => inv_run_aux evs (step s e) (inv_step s e h)

theorem inv_runInterview (evs : List Ev) : SessionInv (runInterview evs) :=
  inv_run_aux evs initState inv_initState

/-- C8: in every reachable orchestrator state at most one turn-generator
call is in flight, and the stop-recording control is disabled whenever
the status is not the listening (recording) state. -/
theorem single_flight_and_stop_button_disabled :
    (∀ evs : List Ev, (runInterview evs).pendingGen ≤ 1) ∧
    (∀ st : InterviewStatus, st ≠ InterviewStatus.listening →
      stopButtonDisabled st = true) := by
  constructor
  · intro evs
    have h := (inv_runInterview evs).1
    simp only [opCount] at h
    omega
  · intro st hst
    cases st <;> simp [stopButtonDisabled] at hst ⊢

/-- Witness for C8: a concrete run, and the disabled button in the
transcribing status. -/
theorem single_flight_and_stop_button_disabled_witness :
    (runInterview [Ev.mount]).pendingGen ≤ 1 ∧
    stopButtonDisabled InterviewStatus.transcribing = true :=
  ⟨single_flight_and_stop_button_disabled.1 [Ev.mount],
   single_flight_and_stop_button_disabled.2 InterviewStatus.transcribing (by decide)⟩

/-! ## C2: questionNumber values in the transcript

The orchestrator copies `questionNumber` verbatim from the provider
response (`setQuestionNumber(newQuestionNum)`); no uniqueness or
monotonicity check exists anywhere, so the transcript numbers are
strictly increasing exactly when the provider numbers are. -/

theorem b2n_eq_zero {b : Bool} (h : b2n b = 0) : b = false := by
  cases b
  · rfl
  · exact absurd h (by simp [b2n])

/-- True in the phases between a received next question and the
submission of the valid answer to it: while speech is synthesised or
played, while recording, and while a stop or transcription is pending. -/
def appendPhase (s : MState) : Bool :=
  s.pendingTts || s.pendingPlay || s.recording || s.pendingStop || s.pendingTranscribe

def transcriptNumbers (s : MState) : List Int :=
  s.transcript.map (fun t => t.questionNumber)

def NumsInv (s : MState) : Prop :=
  (transcriptNumbers s).Pairwise (· < ·) ∧
  (∀ m ∈ transcriptNumbers s, m ≤ s.questionNumber) ∧
  (appendPhase s = true → ∀ m ∈ transcriptNumbers s, m < s.questionNumber)

/-- The per-event condition of a monotone provider: whenever a
`getNextStep` call resolves with a next question, its `questionNumber`
exceeds the current one. -/
def goodEv (s : MState) : Ev → Bool
  | Ev.genDone (GenOutcome.next _ n _) =>
      if s.finished.isSome = false ∧ s.pendingGen ≠ 0 then decide (s.questionNumber < n)
      else true
  | _ => true

def providerMonotone (s : MState) : List Ev → Bool
  | [] => true
  | e :: evs => goodEv s e && providerMonotone (step s e) evs

/-- The in-place feedback patch does not touch `questionNumber`. -/
theorem patchLastTurn_map_questionNumber (l : List TranscriptTurn) (a : AnalysisOut) :
    (patchLastTurn l a).map (fun t => t.questionNumber)
      = l.map (fun t => t.questionNumber) := by
  unfold patchLastTurn
  cases hl : l.getLast? with
  | none => rfl
  | some lastTurn =>
      have hne : l ≠ [] := by
        intro hnil
        subst hnil
        simp at hl
      have hlast : l.getLast hne = lastTurn := by
        have := List.getLast?_eq_getLast l hne
        rw [this] at hl
        exact Option.some.injEq _ _ ▸ hl
      conv_rhs => rw [← List.dropLast_append_getLast hne]
      simp [hlast]

theorem numsInv_initState : NumsInv initState := by
  refine ⟨?_, ?_, ?_⟩ <;> simp [initState, transcriptNumbers, appendPhase]

theorem numsInv_step (s : MState) (e : Ev) (hI : SessionInv s) (h : NumsInv s)
    (hg : goodEv s e = true) : NumsInv (step s e) := by
  obtain ⟨hI1, hI2⟩ := hI
  obtain ⟨h1, h2, h3⟩ := h
  simp only [SessionInv, opCount] at hI1 hI2
  simp only [NumsInv, transcriptNumbers, appendPhase] at h1 h2 h3 ⊢
  unfold step
  by_cases hfin : s.finished.isSome = true
  · rw [if_pos hfin]
    exact ⟨h1, h2, h3⟩
  · rw [if_neg hfin]
    cases e with
    | mount =>
        dsimp only
        split
        · exact ⟨h1, h2, h3⟩
        · exact ⟨h1, h2, h3⟩
    | genDone g =>
        dsimp only
        split
        · exact ⟨h1, h2, h3⟩
        · rename_i hpg
          cases g with
          | fail => exact ⟨h1, h2, h3⟩
          | complete fr => exact ⟨h1, h2, h3⟩
          | next q n an =>
              have hn : s.questionNumber < n := by
                have hfin2 : s.finished.isSome = false := by
                  revert hfin
                  cases s.finished.isSome <;> simp
                unfold goodEv at hg
                dsimp only at hg
                rw [if_pos ⟨hfin2, hpg⟩] at hg
                exact of_decide_eq_true hg
              cases an with
              | none =>
                  dsimp only
                  refine ⟨h1, ?_, ?_⟩
                  · intro m hm
                    exact le_of_lt (lt_of_le_of_lt (h2 m hm) hn)
                  · intro _ m hm
                    exact lt_of_le_of_lt (h2 m hm) hn
              | some a =>
                  dsimp only
                  rw [patchLastTurn_map_questionNumber]
                  refine ⟨h1, ?_, ?_⟩
                  · intro m hm
                    exact le_of_lt (lt_of_le_of_lt (h2 m hm) hn)
                  · intro _ m hm
                    exact lt_of_le_of_lt (h2 m hm) hn
    | ttsDone ok =>
        dsimp only
        split
        · exact ⟨h1, h2, h3⟩
        · rename_i hptts
          have htts : s.pendingTts = true := bool_not_false hptts
          split
          · dsimp only
            exact ⟨h1, h2, fun _ => h3 (by simp [htts])⟩
          · dsimp only
            exact ⟨h1, h2, fun _ => h3 (by simp [htts])⟩
    | playDone ok =>
        dsimp only
        split
        · exact ⟨h1, h2, h3⟩
        · rename_i hpp
          have hplay : s.pendingPlay = true := bool_not_false hpp
          split
          · dsimp only
            exact ⟨h1, h2, fun _ => h3 (by simp [hplay])⟩
          · dsimp only
            exact ⟨h1, h2, fun _ => h3 (by simp [hplay])⟩
    | stopClick =>
        dsimp only
        split
        · rename_i hgd
          obtain ⟨hbtn, hrec⟩ := hgd
          dsimp only
          exact ⟨h1, h2, fun _ => h3 (by simp [hrec])⟩
        · exact ⟨h1, h2, h3⟩
    | recorderStopped blobSize =>
        dsimp only
        split
        · exact ⟨h1, h2, h3⟩
        · rename_i hps
          have hstop : s.pendingStop = true := bool_not_false hps
          split
          · dsimp only
            exact ⟨h1, h2, fun _ => h3 (by simp [hstop])⟩
          · dsimp only
            exact ⟨h1, h2, fun _ => h3 (by simp [hstop])⟩
    | transcribeDone r =>
        dsimp only
        split
        · exact ⟨h1, h2, h3⟩
        · rename_i hpt
          have htr : s.pendingTranscribe = true := bool_not_false hpt
          cases r with
          | fail =>
              dsimp only
              exact ⟨h1, h2, fun _ => h3 (by simp [htr])⟩
          | ok t =>
              dsimp only
              split
              · dsimp only
                exact ⟨h1, h2, fun _ => h3 (by simp [htr])⟩
              · dsimp only
                have hstrict := h3 (by simp [htr])
                rw [htr] at hI1
                simp only [b2n_true] at hI1
                have htts : s.pendingTts = false := b2n_eq_zero (by omega)
                have hplay : s.pendingPlay = false := b2n_eq_zero (by omega)
                have hstop : s.pendingStop = false := b2n_eq_zero (by omega)
                have hrec : s.recording = false := b2n_eq_zero (by omega)
                refine ⟨?_, ?_, ?_⟩
                · rw [List.map_append, List.pairwise_append]
                  refine ⟨h1, by simp, ?_⟩
                  intro x hx y hy
                  simp only [answerTurn, List.map_cons, List.map_nil,
                    List.mem_singleton] at hy
                  subst hy
                  exact hstrict x hx
                · intro m hm
                  rw [List.map_append] at hm
                  rcases List.mem_append.mp hm with hm1 | hm2
                  · exact h2 m hm1
                  · simp only [answerTurn, List.map_cons, List.map_nil,
                      List.mem_singleton] at hm2
                    subst hm2
                    exact le_refl _
                · intro hap
                  rw [htts, hplay, hstop, hrec] at hap
                  simp at hap

theorem numsInv_run :
    ∀ (evs : List Ev) (s : MState), SessionInv s → NumsInv s →
      providerMonotone s evs = true → NumsInv (evs.foldl step s)
  | [], _, _, h, _ => h
  | e :: evs, s, hI, h, hp => by
      rw [providerMonotone, Bool.and_eq_true] at hp
      obtain ⟨hg, hrest⟩ := hp
      exact numsInv_run evs (step s e) (inv_step s e hI) (numsInv_step s e hI h hg) hrest

/-- C2 amended: the `questionNumber` values of the transcript are copied
verbatim from the provider; they are strictly increasing (hence unique)
in every run in which each provider-assigned next-question number exceeds
the current one.  Without that proviso the orchestrator enforces nothing
(see the repetition counterexample). -/
theorem transcript_questionNumbers_increasing_of_monotone_provider
    (evs : List Ev) (h : providerMonotone initState evs = true) :
    (transcriptNumbers (runInterview evs)).Pairwise (· < ·) ∧
    (transcriptNumbers (runInterview evs)).Pairwise (· ≠ ·) := by
  have hm := (numsInv_run evs initState inv_initState numsInv_initState h).1
  exact ⟨hm, hm.imp ne_of_lt⟩

/-- A run in which the provider assigns `questionNumber = 1` to two
consecutive questions: both answers are long enough to be valid. -/
def duplicateNumberRun : List Ev :=
  [Ev.mount,
   Ev.genDone (GenOutcome.next "Tell me about your background." 1 none),
   Ev.ttsDone true, Ev.playDone true,
   Ev.stopClick, Ev.recorderStopped 5,
   Ev.transcribeDone (TrOutcome.ok "I led a team of five engineers"),
   Ev.genDone (GenOutcome.next "What is your greatest strength?" 1
     (some { quickFeedback := "Good detail", scores := ⟨4, 4, 3, 4, 4⟩,
             sourceOfQuestion := some "JD" })),
   Ev.ttsDone true, Ev.playDone true,
   Ev.stopClick, Ev.recorderStopped 5,
   Ev.transcribeDone (TrOutcome.ok "Precision and steady communication")]

/-- C2 counterexample: with a provider that repeats `questionNumber = 1`,
the session transcript ends with two Turns both numbered 1 — the
questionNumber values are neither unique nor strictly increasing. -/
theorem questionNumbers_can_repeat :
    transcriptNumbers (runInterview duplicateNumberRun) = [1, 1] ∧
    ¬ (transcriptNumbers (runInterview duplicateNumberRun)).Pairwise (· ≠ ·) := by
  have h : transcriptNumbers (runInterview duplicateNumberRun) = [1, 1] := by decide
  refine ⟨h, ?_⟩
  rw [h]
  simp

/-- A monotone run for the C2 witness: numbers 1 then 2. -/
def monotoneRun : List Ev :=
  [Ev.mount,
   Ev.genDone (GenOutcome.next "Tell me about your background." 1 none),
   Ev.ttsDone true, Ev.playDone true,
   Ev.stopClick, Ev.recorderStopped 5,
   Ev.transcribeDone (TrOutcome.ok "I led a team of five engineers"),
   Ev.genDone (GenOutcome.next "What is your greatest strength?" 2
     (some { quickFeedback := "Good detail", scores := ⟨4, 4, 3, 4, 4⟩,
             sourceOfQuestion := some "JD" })),
   Ev.ttsDone true, Ev.playDone true,
   Ev.stopClick, Ev.recorderStopped 5,
   Ev.transcribeDone (TrOutcome.ok "Precision and steady communication")]

/-- Witness for the amended C2 theorem on a concrete monotone run. -/
theorem transcript_questionNumbers_increasing_witness :
    providerMonotone initState monotoneRun = true ∧
    (transcriptNumbers (runInterview monotoneRun)).Pairwise (· < ·) ∧
    (transcriptNumbers (runInterview monotoneRun)).Pairwise (· ≠ ·) :=
  ⟨by decide, transcript_questionNumbers_increasing_of_monotone_provider monotoneRun (by decide)⟩

/-! ## C4: when a Turn is appended -/

/-- A run in which the first question has been generated, spoken, and
the orchestrator is listening for the answer. -/
def firstQuestionRun : List Ev :=
  [Ev.mount,
   Ev.genDone (GenOutcome.next "Tell me about yourself." 1 none),
   Ev.ttsDone true, Ev.playDone true]

/-- C4 counterexample: after the first next-question response has been
processed the orchestrator is listening with question number 1, yet the
transcript is still empty — no Turn is appended when a question is
returned, so the first question does not appear as Turn #1 before it is
answered. -/
theorem first_question_not_appended_before_answer :
    (runInterview firstQuestionRun).status = InterviewStatus.listening ∧
    (runInterview firstQuestionRun).questionNumber = 1 ∧
    (runInterview firstQuestionRun).currentQuestion = "Tell me about yourself." ∧
    (runInterview firstQuestionRun).transcript = [] := by
  refine ⟨rfl, rfl, rfl, rfl⟩

/-- C4 amended: the orchestrator appends a Turn only when a valid answer
is submitted: the new Turn carries the text and number of the pending
question, the answer, placeholder feedback "Analyzing...", all-zero
placeholder scores, and placeholder source "JD"; the status moves to
processing the answer. -/
theorem turn_appended_on_answer_submission (s : MState) (t : String)
    (hfin : s.finished = none) (hpt : s.pendingTranscribe = true)
    (hval : isInvalid t = false) :
    (step s (Ev.transcribeDone (TrOutcome.ok t))).transcript
      = s.transcript ++
        [{ questionNumber := s.questionNumber
           question := s.currentQuestion
           sourceOfQuestion := some "JD"
           candidateAnswer := t
           quickFeedback := "Analyzing..."
           scores := { relevance := 0, structureScore := 0, metrics := 0
                       alignment := 0, communication := 0 } }] ∧
    (step s (Ev.transcribeDone (TrOutcome.ok t))).status
      = InterviewStatus.processing_answer ∧
    (step s (Ev.transcribeDone (TrOutcome.ok t))).genCalls = s.genCalls + 1 := by
  simp [step, hfin, hpt, hval, answerTurn]

/-- Witness for the C4 amended theorem at a concrete listening state. -/
theorem turn_appended_on_answer_submission_witness :
    isInvalid "I led a team of five engineers" = false ∧
    (step { initState with
              status := InterviewStatus.transcribing
              currentQuestion := "Tell me about yourself."
              questionNumber := 1
              pendingTranscribe := true }
        (Ev.transcribeDone (TrOutcome.ok "I led a team of five engineers"))).transcript
      = [{ questionNumber := 1
           question := "Tell me about yourself."
           sourceOfQuestion := some "JD"
           candidateAnswer := "I led a team of five engineers"
           quickFeedback := "Analyzing..."
           scores := { relevance := 0, structureScore := 0, metrics := 0
                       alignment := 0, communication := 0 } }] :=
  ⟨by decide,
   by
    have h := (turn_appended_on_answer_submission
      { initState with
          status := InterviewStatus.transcribing
          currentQuestion := "Tell me about yourself."
          questionNumber := 1
          pendingTranscribe := true }
      "I led a team of five engineers" rfl rfl (by decide)).1
    simpa using h⟩

/-! ## C5: degenerate transcription retries in place -/

/-- C5: a transcription result that is empty, shorter than 5 characters
after trimming, or containing the known placeholder string is rejected:
a retryable warning is surfaced, recording restarts, and the transcript,
question number, and turn-generator call count are all unchanged. -/
theorem degenerate_transcription_retries_in_place (s : MState) (t : String)
    (hfin : s.finished = none) (hpt : s.pendingTranscribe = true)
    (hbad : isInvalid t = true) :
    ((step s (Ev.transcribeDone (TrOutcome.ok t))).transcript = s.transcript ∧
     (step s (Ev.transcribeDone (TrOutcome.ok t))).questionNumber = s.questionNumber ∧
     (step s (Ev.transcribeDone (TrOutcome.ok t))).status = InterviewStatus.listening ∧
     (step s (Ev.transcribeDone (TrOutcome.ok t))).recording = true ∧
     (step s (Ev.transcribeDone (TrOutcome.ok t))).transcriptionError.isSome = true ∧
     (step s (Ev.transcribeDone (TrOutcome.ok t))).genCalls = s.genCalls ∧
     (step s (Ev.transcribeDone (TrOutcome.ok t))).pendingGen = s.pendingGen) ∧
    (isInvalid "" = true ∧
     (∀ u : String, (jsTrim u.data).length < 5 → isInvalid u = true) ∧
     isInvalid "This is my transcribed answer" = true) := by
  constructor
  · simp [step, hfin, hpt, hbad]
  · refine ⟨by decide, ?_, by decide⟩
    intro u hu
    simp [isInvalid, hu]

/-- Witness for C5 at a concrete three-character transcription. -/
theorem degenerate_transcription_retries_in_place_witness :
    isInvalid "hm." = true ∧
    (step { initState with
              status := InterviewStatus.transcribing
              questionNumber := 2
              pendingTranscribe := true }
        (Ev.transcribeDone (TrOutcome.ok "hm."))).transcript = [] ∧
    (step { initState with
              status := InterviewStatus.transcribing
              questionNumber := 2
              pendingTranscribe := true }
        (Ev.transcribeDone (TrOutcome.ok "hm."))).questionNumber = 2 ∧
    (step { initState with
              status := InterviewStatus.transcribing
              questionNumber := 2
              pendingTranscribe := true }
        (Ev.transcribeDone (TrOutcome.ok "hm."))).status = InterviewStatus.listening :=
  ⟨by decide,
   by
    have h := (degenerate_transcription_retries_in_place
      { initState with
          status := InterviewStatus.transcribing
          questionNumber := 2
          pendingTranscribe := true }
      "hm." rfl rfl (by decide)).1
    exact ⟨h.1, h.2.1, h.2.2.1⟩⟩

/-! ## C6: zero-byte recordings never reach the transcription client -/

/-- C6: when the recorder finalises a zero-byte blob, the orchestrator
re-enters recording directly: the transcription call counter and pending
flag are untouched (the remote service is never invoked), a warning is
set, and the transcript and question number are unchanged. -/
theorem zero_byte_audio_skips_transcription (s : MState)
    (hfin : s.finished = none) (hps : s.pendingStop = true) :
    (step s (Ev.recorderStopped 0)).transcribeCalls = s.transcribeCalls ∧
    (step s (Ev.recorderStopped 0)).pendingTranscribe = s.pendingTranscribe ∧
    (step s (Ev.recorderStopped 0)).status = InterviewStatus.listening ∧
    (step s (Ev.recorderStopped 0)).recording = true ∧
    (step s (Ev.recorderStopped 0)).transcriptionError.isSome = true ∧
    (step s (Ev.recorderStopped 0)).transcript = s.transcript ∧
    (step s (Ev.recorderStopped 0)).questionNumber = s.questionNumber := by
  simp [step, hfin, hps]

/-- Witness for C6 at a concrete stopping state. -/
theorem zero_byte_audio_skips_transcription_witness :
    (step { initState with
              status := InterviewStatus.listening
              questionNumber := 1
              pendingStop := true }
        (Ev.recorderStopped 0)).transcribeCalls = 0 ∧
    (step { initState with
              status := InterviewStatus.listening
              questionNumber := 1
              pendingStop := true }
        (Ev.recorderStopped 0)).status = InterviewStatus.listening :=
  ⟨(zero_byte_audio_skips_transcription
      { initState with
          status := InterviewStatus.listening
          questionNumber := 1
          pendingStop := true } rfl rfl).1,
   (zero_byte_audio_skips_transcription
      { initState with
          status := InterviewStatus.listening
          questionNumber := 1
          pendingStop := true } rfl rfl).2.2.1⟩

/-! ## C10: `getNextStep` does not mutate the turns of the caller -/

/-- The completion-branch map only ever allocates: the resulting heap is
the input heap extended at the end. -/
theorem finalTranscriptAllocGo_extends (an : Option AnalysisR) :
    ∀ (l : List Addr) (h : Heap) (len idx : Nat),
      ∃ ext, (finalTranscriptAllocGo h an len idx l).1.cells = h.cells ++ ext
  | [], h, len, idx => ⟨[], by simp [finalTranscriptAllocGo]⟩
  | a :: rest, h, len, idx => by
      cases an with
      | none =>
          obtain ⟨ext, hext⟩ :=
            finalTranscriptAllocGo_extends none rest h len (idx + 1)
          exact ⟨ext, by simpa [finalTranscriptAllocGo] using hext⟩
      | some x =>
          by_cases hidx : idx = len - 1
          · subst hidx
            obtain ⟨ext, hext⟩ := finalTranscriptAllocGo_extends (some x) rest
              { cells := h.cells ++
                  [{ h.read a with quickFeedback := x.quickFeedback, scores := x.scores }] }
              len (len - 1 + 1)
            refine ⟨[{ h.read a with quickFeedback := x.quickFeedback, scores := x.scores }] ++ ext, ?_⟩
            conv_lhs => rw [finalTranscriptAllocGo]
            dsimp only
            rw [if_pos rfl]
            dsimp only [Heap.alloc]
            rw [← List.append_assoc]
            exact hext
          · obtain ⟨ext, hext⟩ :=
              finalTranscriptAllocGo_extends (some x) rest h len (idx + 1)
            exact ⟨ext, by simpa [finalTranscriptAllocGo, hidx] using hext⟩

/-- Without an analysis the map is the identity: same heap, same
addresses. -/
theorem finalTranscriptAllocGo_none :
    ∀ (l : List Addr) (h : Heap) (len idx : Nat),
      finalTranscriptAllocGo h none len idx l = (h, l)
  | [], h, len, idx => rfl
  | a :: rest, h, len, idx => by
      simp [finalTranscriptAllocGo, finalTranscriptAllocGo_none rest h len (idx + 1)]

/-- With an analysis and a nonempty address list, exactly one fresh cell
is allocated — a patched copy of the last turn — and the returned
sequence is the original addresses with only the last replaced by the
fresh address `h.cells.length`. -/
theorem finalTranscriptAllocGo_some :
    ∀ (l : List Addr) (lastA : Addr) (h : Heap) (len idx : Nat) (a : AnalysisR),
      len = idx + l.length → l.getLast? = some lastA →
      (finalTranscriptAllocGo h (some a) len idx l).1.cells
        = h.cells ++ [{ h.read lastA with quickFeedback := a.quickFeedback, scores := a.scores }] ∧
      (finalTranscriptAllocGo h (some a) len idx l).2
        = l.dropLast ++ [h.cells.length]
  | [], lastA, h, len, idx, a => by
      intro _ hlast
      simp at hlast
  | [x], lastA, h, len, idx, a => by
      intro hlen hlast
      simp only [List.getLast?_singleton, Option.some.injEq] at hlast
      subst hlast
      have hidx : idx = len - 1 := by
        simp at hlen
        omega
      simp [finalTranscriptAllocGo, hidx, Heap.alloc, finalTranscriptAllocGo_extends]
  | x :: y :: rest, lastA, h, len, idx, a => by
      intro hlen hlast
      have hidx : ¬ idx = len - 1 := by
        simp at hlen
        omega
      have hlast2 : (y :: rest).getLast? = some lastA := by
        rw [List.getLast?_cons_cons] at hlast
        exact hlast
      have hlen2 : len = (idx + 1) + (y :: rest).length := by
        simp at hlen ⊢
        omega
      obtain ⟨ih1, ih2⟩ :=
        finalTranscriptAllocGo_some (y :: rest) lastA h len (idx + 1) a hlen2 hlast2
      constructor
      · simpa [finalTranscriptAllocGo, hidx] using ih1
      · conv_lhs => rw [finalTranscriptAllocGo]
        dsimp only
        rw [if_neg hidx]
        dsimp only
        rw [ih2]
        have hne : (y :: rest) ≠ [] := by simp
        rw [List.dropLast_cons_of_ne_nil hne]
        rfl

/-- C10: the function `getNextStep` never mutates the transcript of the caller: in every
branch (success, completion, or failure) every pre-existing turn cell of
the store is unchanged; when no analysis accompanies a completion the
very same heap and address list come back, and when an analysis is
present the completed report transcript keeps every earlier address
of the original sequence and ends in a single freshly allocated patched
copy of the last turn. -/
theorem getNextStep_preserves_caller_turns
    (h : Heap) (transcript : List Addr) (userAnswer : Option String)
    (parsed : Option GenResponse) :
    (∀ a : Addr, a < h.cells.length →
      (getNextStepHeap h transcript userAnswer parsed).1.cells[a]? = h.cells[a]?) ∧
    (finalTranscriptAlloc h transcript none = (h, transcript)) ∧
    (∀ (an : AnalysisR) (lastA : Addr), transcript.getLast? = some lastA →
      finalTranscriptAlloc h transcript (some an)
        = ({ cells := h.cells ++ [{ h.read lastA with quickFeedback := an.quickFeedback, scores := an.scores }] },
           transcript.dropLast ++ [h.cells.length])) := by
  refine ⟨?_, finalTranscriptAllocGo_none transcript h transcript.length 0, ?_⟩
  · intro a ha
    have hext : ∃ ext,
        (getNextStepHeap h transcript userAnswer parsed).1.cells = h.cells ++ ext := by
      rcases parsed with _ | j
      · exact ⟨[], by simp [getNextStepHeap]⟩
      · rcases j with ⟨ic, nqo, an, fr⟩
        rcases ic with _ | ib
        · cases an with
          | none =>
              cases (transcript.isEmpty && userAnswer.isNone) <;>
                exact ⟨[], by simp [getNextStepHeap]⟩
          | some x =>
              cases hb : (transcript.isEmpty && userAnswer.isNone)
              · cases nqo <;> exact ⟨[], by simp [getNextStepHeap, hb]⟩
              · exact ⟨[], by simp [getNextStepHeap, hb]⟩
        · cases ib
          · cases an with
            | none =>
                cases (transcript.isEmpty && userAnswer.isNone) <;>
                  exact ⟨[], by simp [getNextStepHeap]⟩
            | some x =>
                cases hb : (transcript.isEmpty && userAnswer.isNone)
                · cases nqo <;> exact ⟨[], by simp [getNextStepHeap, hb]⟩
                · exact ⟨[], by simp [getNextStepHeap, hb]⟩
          · cases fr with
            | none =>
                cases an with
                | none =>
                    cases (transcript.isEmpty && userAnswer.isNone) <;>
                      exact ⟨[], by simp [getNextStepHeap]⟩
                | some x =>
                    cases hb : (transcript.isEmpty && userAnswer.isNone)
                    · cases nqo <;> exact ⟨[], by simp [getNextStepHeap, hb]⟩
                    · exact ⟨[], by simp [getNextStepHeap, hb]⟩
            | some r =>
                obtain ⟨ext, hext⟩ := finalTranscriptAllocGo_extends an transcript h
                  transcript.length 0
                exact ⟨ext, by simpa [getNextStepHeap, finalTranscriptAlloc] using hext⟩
    obtain ⟨ext, hext⟩ := hext
    rw [hext]
    exact List.getElem?_append_left ha
  · intro an lastA hlast
    have := finalTranscriptAllocGo_some transcript lastA h transcript.length 0 an
      (by simp) hlast
    unfold finalTranscriptAlloc
    obtain ⟨h1, h2⟩ := this
    cases hres : finalTranscriptAllocGo h (some an) transcript.length 0 transcript with
    | mk hh tt =>
        rw [hres] at h1 h2
        simp only at h1 h2
        cases hh with
        | mk cells => simp_all

/-- Witness for C10 at a concrete two-turn store. -/
theorem getNextStep_preserves_caller_turns_witness :
    (0 : Nat) < ({ cells :=
        [{ questionNumber := 1, question := "Q1", sourceOfQuestion := some "JD",
           candidateAnswer := "A1", quickFeedback := "fb1", scores := ⟨3, 3, 3, 3, 3⟩ },
         { questionNumber := 2, question := "Q2", sourceOfQuestion := some "Mixed",
           candidateAnswer := "A2", quickFeedback := "Analyzing...", scores := ⟨0, 0, 0, 0, 0⟩ }] } : Heap).cells.length ∧
    (getNextStepHeap
        { cells :=
            [{ questionNumber := 1, question := "Q1", sourceOfQuestion := some "JD",
               candidateAnswer := "A1", quickFeedback := "fb1", scores := ⟨3, 3, 3, 3, 3⟩ },
             { questionNumber := 2, question := "Q2", sourceOfQuestion := some "Mixed",
               candidateAnswer := "A2", quickFeedback := "Analyzing...", scores := ⟨0, 0, 0, 0, 0⟩ }] }
        [0, 1] (some "A2")
        (some { interviewComplete := some true
                nextQuestion := none
                currentAnswerAnalysis := some { quickFeedback := "Well structured", scores := ⟨4, 5, 3, 4, 4⟩ }
                finalReport := some { summary := none, downloadableTranscriptMarkdown := some "md", downloadableReportText := some "txt" } })).1.cells[0]?
      = ({ cells :=
            [{ questionNumber := 1, question := "Q1", sourceOfQuestion := some "JD",
               candidateAnswer := "A1", quickFeedback := "fb1", scores := ⟨3, 3, 3, 3, 3⟩ },
             { questionNumber := 2, question := "Q2", sourceOfQuestion := some "Mixed",
               candidateAnswer := "A2", quickFeedback := "Analyzing...", scores := ⟨0, 0, 0, 0, 0⟩ }] } : Heap).cells[0]? :=
  ⟨by decide,
   (getNextStep_preserves_caller_turns
      { cells :=
          [{ questionNumber := 1, question := "Q1", sourceOfQuestion := some "JD",
             candidateAnswer := "A1", quickFeedback := "fb1", scores := ⟨3, 3, 3, 3, 3⟩ },
           { questionNumber := 2, question := "Q2", sourceOfQuestion := some "Mixed",
             candidateAnswer := "A2", quickFeedback := "Analyzing...", scores := ⟨0, 0, 0, 0, 0⟩ }] }
      [0, 1] (some "A2")
      (some { interviewComplete := some true
              nextQuestion := none
              currentAnswerAnalysis := some { quickFeedback := "Well structured", scores := ⟨4, 5, 3, 4, 4⟩ }
              finalReport := some { summary := none, downloadableTranscriptMarkdown := some "md", downloadableReportText := some "txt" } })).1
    0 (by decide)⟩
